import Mathlib

/-!
Verification development for the sparse Y-bus core of the power-grid-model
library, together with the tap/grounding logic of the three-winding
transformer component.

The Y-bus implementation (`y_bus.hpp`) is not part of the available sources;
only its unit tests are.  Its data model and algorithms are therefore
modelled from the specification (sections 3 and 4 of the spec), and the
model is validated against the exact expectations recorded in
`test_y_bus.cpp`.  The three-winding transformer definitions are translated
directly from `three_winding_transformer.hpp`.

Complex scalars are represented exactly, with rational components, so that
all admittance arithmetic is decidable; this matches the symmetric (scalar
complex) representation of the library.
-/

namespace PowerGridModel

/-- Complex scalar with rational components, standing for the library's
`DoubleComplex` values (symmetric representation). -/
@[ext]
structure DoubleComplex where
  re : ℚ
  im : ℚ
  deriving DecidableEq

instance : Zero DoubleComplex := ⟨⟨0, 0⟩⟩

instance : Add DoubleComplex := ⟨fun a b => ⟨a.re + b.re, a.im + b.im⟩⟩

instance : Neg DoubleComplex := ⟨fun a => ⟨-a.re, -a.im⟩⟩

instance : Mul DoubleComplex := ⟨fun a b => ⟨a.re * b.re - a.im * b.im, a.re * b.im + a.im * b.re⟩⟩

/-- Complex conjugation on `DoubleComplex`. -/
def DoubleComplex.conj (a : DoubleComplex) : DoubleComplex := ⟨a.re, -a.im⟩

instance : AddCommMonoid DoubleComplex where
  add_assoc a b c := by
    apply DoubleComplex.ext
    · show a.re + b.re + c.re = a.re + (b.re + c.re); ring
    · show a.im + b.im + c.im = a.im + (b.im + c.im); ring
  zero_add a := by
    apply DoubleComplex.ext
    · show 0 + a.re = a.re; ring
    · show 0 + a.im = a.im; ring
  add_zero a := by
    apply DoubleComplex.ext
    · show a.re + 0 = a.re; ring
    · show a.im + 0 = a.im; ring
  add_comm a b := by
    apply DoubleComplex.ext
    · show a.re + b.re = b.re + a.re; ring
    · show a.im + b.im = b.im + a.im; ring
  nsmul := nsmulRec

/-- Shorthand constructor for complex rationals. -/
def ci (a b : ℚ) : DoubleComplex := ⟨a, b⟩

/-- Modelled from the spec: the Topology consumed by the Sparsity Builder
(spec section 3), whose concrete `MathModelTopology` struct is absent from
the sources.  `phase_shift` has one value per bus, `branch_bus_idx` one
(from, to) pair per branch with `-1` the not-connected sentinel, and
`shunt_bus_indptr` is the CSR pointer of shunts per bus. -/
structure MathModelTopology where
  phase_shift : List ℚ
  branch_bus_idx : List (Int × Int)
  shunt_bus_indptr : List Nat
  deriving DecidableEq

/-- Modelled from the spec: the per-branch 2x2 block of admittance
sub-blocks `(ff, ft, tf, tt)` of the Parameter Set (spec section 3). -/
structure BranchCalcParam where
  yff : DoubleComplex
  yft : DoubleComplex
  ytf : DoubleComplex
  ytt : DoubleComplex
  deriving DecidableEq

/-- Modelled from the spec: the Parameter Set (symmetric representation)
whose concrete `MathModelParam` struct is absent from the sources. -/
structure MathModelParam where
  branch_param : List BranchCalcParam
  shunt_param : List DoubleComplex
  deriving DecidableEq

namespace YBus

/-- Modelled from the spec: `size()` is the bus count. -/
def size (topo : MathModelTopology) : Nat := topo.phase_shift.length

/-- Number of branches of a topology. -/
def n_branch (topo : MathModelTopology) : Nat := topo.branch_bus_idx.length

/-- Access into `shunt_bus_indptr` (0 past the end). -/
def sbi (topo : MathModelTopology) (b : Nat) : Nat := topo.shunt_bus_indptr.getD b 0

/-- Modelled from the spec: total shunt count, the last value of
`shunt_bus_indptr`. -/
def n_shunt (topo : MathModelTopology) : Nat := sbi topo (size topo)

/-- A single bus index of a branch is admissible when it is the
not-connected sentinel `-1` or lies in `[0, n)`. -/
def bus_ok (n : Nat) (x : Int) : Bool := x = -1 || (0 ≤ x && x < (n : Int))

/-- Modelled from the spec: the topology validity checked at build time
(spec section 4.1 failure conditions): `shunt_bus_indptr` has length
bus-count + 1 and is non-decreasing, and every non-sentinel branch bus
index lies in `[0, bus-count)`. -/
def valid_topology (topo : MathModelTopology) : Bool :=
  topo.shunt_bus_indptr.length = size topo + 1 &&
  (List.range (size topo)).all (fun b => sbi topo b ≤ sbi topo (b + 1)) &&
  topo.branch_bus_idx.all (fun ft => bus_ok (size topo) ft.1 && bus_ok (size topo) ft.2)

/-- The kind of an individual admittance contribution: one of the four
branch sub-blocks, or a shunt value. -/
inductive YBusElementType
  | bff
  | bft
  | btf
  | btt
  | shunt
  deriving DecidableEq

/-- Modelled from the spec: one pre-merge candidate contribution with its
owning element index and the matrix cell it lands on (spec section 4.1
step 1). -/
structure YBusElement where
  element_type : YBusElementType
  idx : Nat
  row : Nat
  col : Nat
  deriving DecidableEq

/-- Modelled from the spec: the candidate contributions registered by one
branch (spec section 4.1 step 1): four sub-blocks when both ends are
connected, only the surviving diagonal sub-block when one end is
disconnected, nothing when both are. -/
def branch_elements (i : Nat) (ft : Int × Int) : List YBusElement :=
  if ft.1 ≠ -1 ∧ ft.2 ≠ -1 then
    [⟨.bff, i, ft.1.toNat, ft.1.toNat⟩, ⟨.bft, i, ft.1.toNat, ft.2.toNat⟩,
     ⟨.btf, i, ft.2.toNat, ft.1.toNat⟩, ⟨.btt, i, ft.2.toNat, ft.2.toNat⟩]
  else if ft.1 ≠ -1 then [⟨.bff, i, ft.1.toNat, ft.1.toNat⟩]
  else if ft.2 ≠ -1 then [⟨.btt, i, ft.2.toNat, ft.2.toNat⟩]
  else []

/-- Modelled from the spec: all candidate contributions, in registration
order: branches first (in branch order, sub-blocks in ff, ft, tf, tt
order), then the shunts of each bus (spec section 4.1 step 1). -/
def all_elements (topo : MathModelTopology) : List YBusElement :=
  (List.range (n_branch topo)).flatMap
    (fun i => branch_elements i (topo.branch_bus_idx.getD i (-1, -1))) ++
  (List.range (size topo)).flatMap
    (fun b => (List.range (sbi topo (b + 1) - sbi topo b)).map
      (fun j => ⟨.shunt, sbi topo b + j, b, b⟩))

/-- Whether some registered contribution lands on cell `(r, c)`. -/
def has_element (topo : MathModelTopology) (r c : Nat) : Bool :=
  (all_elements topo).any (fun e => e.row = r && e.col = c)

/-- Modelled from the spec: the sorted, merged column list of row `r`; the
diagonal column is always present (spec section 4.1 steps 2-4). -/
def cols_of_row (topo : MathModelTopology) (r : Nat) : List Nat :=
  (List.range (size topo)).filter (fun c => c = r || has_element topo r c)

/-- Modelled from the spec: the merged nonzero cells in row-major order. -/
def cells (topo : MathModelTopology) : List (Nat × Nat) :=
  (List.range (size topo)).flatMap (fun r => (cols_of_row topo r).map (fun c => (r, c)))

/-- Modelled from the spec: `nnz()`, the stored nonzero count. -/
def nnz (topo : MathModelTopology) : Nat := (cells topo).length

/-- Modelled from the spec: `col_indices()`, the column of each stored
nonzero. -/
def col_indices (topo : MathModelTopology) : List Nat := (cells topo).map Prod.snd

/-- Modelled from the spec: `row_indices()`, the row of each stored
nonzero. -/
def row_indices (topo : MathModelTopology) : List Nat := (cells topo).map Prod.fst

/-- Iterated partial sum: `psum f k = f 0 + f 1 + ... + f (k-1)`. -/
def psum (f : Nat → Nat) : Nat → Nat
  | 0 => 0
  | k + 1 => psum f k + f k

/-- Modelled from the spec: `row_indptr()`, the CSR row pointer obtained as
the prefix sum of per-row nonzero counts (spec section 4.1 step 2). -/
def row_indptr (topo : MathModelTopology) : List Nat :=
  (List.range (size topo + 1)).map (psum (fun r => (cols_of_row topo r).length))

/-- First position of an element in a list (length when absent). -/
def posOf {α : Type} [DecidableEq α] (p : α) : List α → Nat
  | [] => 0
  | q :: l => if q = p then 0 else posOf p l + 1

/-- Modelled from the spec: `bus_entry()`, the index of the diagonal
nonzero of each bus (spec section 4.1 step 4). -/
def bus_entry (topo : MathModelTopology) : List Nat :=
  (List.range (size topo)).map (fun b => posOf (b, b) (cells topo))

/-- Modelled from the spec: `transpose_entry()`, the index of the mirror
cell of each stored nonzero (spec section 4.1 step 5). -/
def transpose_entry (topo : MathModelTopology) : List Nat :=
  (cells topo).map (fun p => posOf (p.2, p.1) (cells topo))

/-- The candidate contributions landing on one cell, in registration
order. -/
def entry_elements (topo : MathModelTopology) (p : Nat × Nat) : List YBusElement :=
  (all_elements topo).filter (fun e => e.row = p.1 && e.col = p.2)

/-- The contribution groups of all merged nonzeros, in nonzero order. -/
def entry_groups (topo : MathModelTopology) : List (List YBusElement) :=
  (cells topo).map (entry_elements topo)

/-- Modelled from the spec: the counting-sorted candidate array that
`y_bus_entry_indptr` indexes into (spec section 4.1 step 3). -/
def sorted_elements (topo : MathModelTopology) : List YBusElement :=
  (entry_groups topo).flatten

/-- Modelled from the spec: `y_bus_entry_indptr()`, the CSR-style grouping
of candidate contributions per merged nonzero (spec section 4.1 step 4). -/
def y_bus_entry_indptr (topo : MathModelTopology) : List Nat :=
  (List.range (nnz topo + 1)).map (psum (fun k => ((entry_groups topo).getD k []).length))

/-- Modelled from the spec: the value of one candidate contribution, read
from the Parameter Set according to the candidate's kind (spec section
4.2). -/
def param_value (param : MathModelParam) (e : YBusElement) : DoubleComplex :=
  match e.element_type with
  | .bff => (param.branch_param.getD e.idx ⟨0, 0, 0, 0⟩).yff
  | .bft => (param.branch_param.getD e.idx ⟨0, 0, 0, 0⟩).yft
  | .btf => (param.branch_param.getD e.idx ⟨0, 0, 0, 0⟩).ytf
  | .btt => (param.branch_param.getD e.idx ⟨0, 0, 0, 0⟩).ytt
  | .shunt => param.shunt_param.getD e.idx 0

/-- Modelled from the spec: `admittance()`, the sum of the grouped
contributions of each merged nonzero (spec section 4.2). -/
def admittance (topo : MathModelTopology) (param : MathModelParam) : List DoubleComplex :=
  (entry_groups topo).map (fun g => (g.map (param_value param)).sum)

/-- Modelled from the spec: the Parameter Set cardinality check of the
Admittance Assembler (spec section 4.2 failure condition). -/
def sizes_match (topo : MathModelTopology) (param : MathModelParam) : Bool :=
  param.branch_param.length = n_branch topo && param.shunt_param.length = n_shunt topo

/-- Modelled from the spec: the error taxonomy of the core (spec section
7). -/
inductive YBusError
  | InvalidTopology
  | SizeMismatch
  deriving DecidableEq

/-- Modelled from the spec: the Y-bus structure exposed to collaborators
(spec sections 3 and 6). -/
structure YBusStruct where
  size : Nat
  row_indptr : List Nat
  col_indices : List Nat
  row_indices : List Nat
  bus_entry : List Nat
  transpose_entry : List Nat
  y_bus_entry_indptr : List Nat
  deriving DecidableEq

/-- Modelled from the spec: structure construction, which aborts with
`InvalidTopology` on a malformed topology and otherwise returns the full
structure (spec sections 4.1 and 7). -/
def build_structure (topo : MathModelTopology) : Except YBusError YBusStruct :=
  if valid_topology topo then
    .ok ⟨size topo, row_indptr topo, col_indices topo, row_indices topo,
         bus_entry topo, transpose_entry topo, y_bus_entry_indptr topo⟩
  else .error .InvalidTopology

/-- Modelled from the spec: admittance assembly, which aborts with
`InvalidTopology` on a malformed topology, with `SizeMismatch` on a
Parameter Set of the wrong cardinality, and otherwise returns the
admittance vector (spec sections 4.2 and 7). -/
def assemble (topo : MathModelTopology) (param : MathModelParam) :
    Except YBusError (List DoubleComplex) :=
  if valid_topology topo then
    if sizes_match topo param then .ok (admittance topo param)
    else .error .SizeMismatch
  else .error .InvalidTopology

/-- One record of `calculate_branch_flow`. -/
structure BranchFlow where
  i_f : DoubleComplex
  i_t : DoubleComplex
  s_f : DoubleComplex
  s_t : DoubleComplex
  deriving DecidableEq

/-- Modelled from the spec: the flow record of one branch (spec section
4.3): currents from the sub-blocks and the bus voltages, powers as voltage
times conjugate current; a disconnected end yields zeros and the connected
end uses the surviving diagonal sub-block. -/
def branch_flow_of (param : MathModelParam) (u : List DoubleComplex) (i : Nat)
    (ft : Int × Int) : BranchFlow :=
  let bp := param.branch_param.getD i ⟨0, 0, 0, 0⟩
  if ft.1 ≠ -1 ∧ ft.2 ≠ -1 then
    let uf := u.getD ft.1.toNat 0
    let ut := u.getD ft.2.toNat 0
    let cf := bp.yff * uf + bp.yft * ut
    let ct := bp.ytf * uf + bp.ytt * ut
    ⟨cf, ct, uf * cf.conj, ut * ct.conj⟩
  else if ft.1 ≠ -1 then
    let uf := u.getD ft.1.toNat 0
    let cf := bp.yff * uf
    ⟨cf, 0, uf * cf.conj, 0⟩
  else if ft.2 ≠ -1 then
    let ut := u.getD ft.2.toNat 0
    let ct := bp.ytt * ut
    ⟨0, ct, 0, ut * ct.conj⟩
  else ⟨0, 0, 0, 0⟩

/-- Modelled from the spec: `calculate_branch_flow`, one record per branch
(spec section 4.3). -/
def calculate_branch_flow (topo : MathModelTopology) (param : MathModelParam)
    (u : List DoubleComplex) : List BranchFlow :=
  (List.range (n_branch topo)).map
    (fun i => branch_flow_of param u i (topo.branch_bus_idx.getD i (-1, -1)))

/-- One record of `calculate_shunt_flow`. -/
structure ShuntFlow where
  i : DoubleComplex
  s : DoubleComplex
  deriving DecidableEq

/-- Modelled from the spec: the flow record of one shunt (spec section
4.3): `i = -y * u_b`, `s = u_b * conj i`. -/
def shunt_flow_of (param : MathModelParam) (u : List DoubleComplex) (b j : Nat) : ShuntFlow :=
  let y := param.shunt_param.getD j 0
  let ub := u.getD b 0
  let cur := -(y * ub)
  ⟨cur, ub * cur.conj⟩

/-- Modelled from the spec: `calculate_shunt_flow`, one record per shunt,
produced bus by bus through `shunt_bus_indptr` (spec section 4.3). -/
def calculate_shunt_flow (topo : MathModelTopology) (param : MathModelParam)
    (u : List DoubleComplex) : List ShuntFlow :=
  (List.range (size topo)).flatMap
    (fun b => (List.range (sbi topo (b + 1) - sbi topo b)).map
      (fun k => shunt_flow_of param u b (sbi topo b + k)))

/-- Modelled from the spec: whether a topology is free of self-loop
branches, i.e. every branch either has a disconnected end or two distinct
buses.  The claim about per-cell sub-block selection is stated under this
hypothesis. -/
def no_self_loop (topo : MathModelTopology) : Bool :=
  topo.branch_bus_idx.all (fun ft => ft.1 = -1 || ft.2 = -1 || ft.1 ≠ ft.2)

/-- The contribution value as the claim describes it: the owning branch's
sub-block selected by comparing the candidate's (row, col) with the
branch's (from, to) buses, or the shunt value for shunt contributions. -/
def rule_value (topo : MathModelTopology) (param : MathModelParam) (e : YBusElement) :
    DoubleComplex :=
  match e.element_type with
  | .shunt => param.shunt_param.getD e.idx 0
  | _ =>
    if (e.row : Int) = (topo.branch_bus_idx.getD e.idx (-1, -1)).1 ∧
        (e.col : Int) = (topo.branch_bus_idx.getD e.idx (-1, -1)).1 then
      (param.branch_param.getD e.idx ⟨0, 0, 0, 0⟩).yff
    else if (e.row : Int) = (topo.branch_bus_idx.getD e.idx (-1, -1)).1 ∧
        (e.col : Int) = (topo.branch_bus_idx.getD e.idx (-1, -1)).2 then
      (param.branch_param.getD e.idx ⟨0, 0, 0, 0⟩).yft
    else if (e.row : Int) = (topo.branch_bus_idx.getD e.idx (-1, -1)).2 ∧
        (e.col : Int) = (topo.branch_bus_idx.getD e.idx (-1, -1)).1 then
      (param.branch_param.getD e.idx ⟨0, 0, 0, 0⟩).ytf
    else if (e.row : Int) = (topo.branch_bus_idx.getD e.idx (-1, -1)).2 ∧
        (e.col : Int) = (topo.branch_bus_idx.getD e.idx (-1, -1)).2 then
      (param.branch_param.getD e.idx ⟨0, 0, 0, 0⟩).ytt
    else 0

/-- The diagonal value as the claim describes it: the sum of the `ff`/`tt`
diagonal sub-blocks of all branches touching bus `b` plus all shunt values
attached to bus `b`. -/
def claimed_diagonal_sum (topo : MathModelTopology) (param : MathModelParam) (b : Nat) :
    DoubleComplex :=
  ((List.range (n_branch topo)).map (fun i =>
    (if (topo.branch_bus_idx.getD i (-1, -1)).1 = (b : Int) then
      (param.branch_param.getD i ⟨0, 0, 0, 0⟩).yff else 0) +
    (if (topo.branch_bus_idx.getD i (-1, -1)).2 = (b : Int) then
      (param.branch_param.getD i ⟨0, 0, 0, 0⟩).ytt else 0))).sum +
  ((List.range (sbi topo (b + 1) - sbi topo b)).map
    (fun k => param.shunt_param.getD (sbi topo b + k) 0)).sum

end YBus

/-- A double restricted to the values relevant to the grounding-impedance
logic: NaN or an exact (rational) value. -/
inductive FloatVal
  | nan : FloatVal
  | val : ℚ → FloatVal
  deriving DecidableEq

/-- NaN detection, as `is_nan` used by `three_winding_transformer.hpp`. -/
def is_nan : FloatVal → Bool
  | .nan => true
  | .val _ => false

/-- The payload of a `FloatVal`, with NaN mapped to zero. -/
def FloatVal.orZero : FloatVal → ℚ
  | .nan => 0
  | .val a => a

/-- Modelled from the spec: the library-wide base power constant
`base_power_3p` (1 MVA), defined outside the available sources. -/
def base_power_3p : ℚ := 1000000

/-- Modelled from the spec: the `na_IntS` sentinel for an absent `IntS`
(int8) value, defined outside the available sources as the smallest int8
value. -/
def na_IntS : Int := -128

/-- The tap-changer state of `ThreeWindingTransformer`
(`three_winding_transformer.hpp`); only the fields read and written by
`set_tap` and `tap_limit` are modelled. -/
structure ThreeWindingTransformer where
  tap_pos : Int
  tap_min : Int
  tap_max : Int
  deriving DecidableEq

/-- `ThreeWindingTransformer::calculate_z_pu` from
`three_winding_transformer.hpp`: default NaN resistance/reactance to zero,
then convert to per unit by dividing by `base_z = u * u / base_power_3p`. -/
def calculate_z_pu (r x : FloatVal) (u : ℚ) : DoubleComplex :=
  let r2 : ℚ := if is_nan r then 0 else r.orZero
  let x2 : ℚ := if is_nan x then 0 else x.orZero
  let base_z : ℚ := u * u / base_power_3p
  ⟨r2 / base_z, x2 / base_z⟩

/-- `ThreeWindingTransformer::tap_limit` from
`three_winding_transformer.hpp`: clamp the new tap position by
`min(tap_max, tap_min)` from below and `max(tap_max, tap_min)` from
above. -/
def ThreeWindingTransformer.tap_limit (t : ThreeWindingTransformer) (new_tap : Int) : Int :=
  max (min new_tap (max t.tap_max t.tap_min)) (min t.tap_max t.tap_min)

/-- `ThreeWindingTransformer::set_tap` from
`three_winding_transformer.hpp`: refuse `na_IntS` and the current tap
position, otherwise store the clamped new tap position. -/
def ThreeWindingTransformer.set_tap (t : ThreeWindingTransformer) (new_tap : Int) :
    Bool × ThreeWindingTransformer :=
  if new_tap = na_IntS ∨ new_tap = t.tap_pos then (false, t)
  else (true, { t with tap_pos := t.tap_limit new_tap })

/-- The 4-bus test topology of `test_y_bus.cpp` ("Test y bus"). -/
def topo4 : MathModelTopology :=
  ⟨[0, 0, 0, 0],
   [(1, 0), (1, 2), (2, 3), (3, 2), (0, 1), (2, -1)],
   [0, 1, 1, 1, 2]⟩

/-- The symmetric parameters of the 4-bus test of `test_y_bus.cpp`. -/
def param4 : MathModelParam :=
  ⟨[⟨ci 0 1, ci 0 2, ci 0 3, ci 0 4⟩,
    ⟨ci 5 0, ci 6 0, ci 7 0, ci 8 0⟩,
    ⟨ci 0 9, ci 0 10, ci 0 11, ci 0 12⟩,
    ⟨ci 13 0, ci 14 0, ci 15 0, ci 16 0⟩,
    ⟨ci 17 0, ci 18 0, ci 19 0, ci 20 0⟩,
    ⟨ci 0 1000, ci 0 0, ci 0 0, ci 0 0⟩],
   [ci 0 100, ci 0 200]⟩

/-- The voltage vector of the flow tests of `test_y_bus.cpp`. -/
def u4 : List DoubleComplex := [ci 1 0, ci 2 0, ci 3 0, ci 4 0]

/-- The single-bus test topology of `test_y_bus.cpp` ("Test one bus
system"). -/
def topo1 : MathModelTopology := ⟨[0], [], [0, 0]⟩

/-- The (empty) parameters of the single-bus test. -/
def param1 : MathModelParam := ⟨[], []⟩

/-- A valid single-bus topology whose only branch is a self-loop. -/
def topoSL : MathModelTopology := ⟨[0], [(0, 0)], [0, 0]⟩

/-- Parameters for `topoSL`: the self-loop branch has a nonzero `ft`
sub-block and zero `ff`/`tf`/`tt` sub-blocks. -/
def paramSL : MathModelParam := ⟨[⟨ci 0 0, ci 1 0, ci 0 0, ci 0 0⟩], []⟩

/-- An invalid topology: one bus, but a branch referencing bus index 2. -/
def topoBad : MathModelTopology := ⟨[0], [(2, 0)], [0, 0]⟩

/-- A parameter set with one branch block and no shunt value, mismatching
`topo1` (zero branches). -/
def paramBad : MathModelParam := ⟨[⟨ci 0 0, ci 0 0, ci 0 0, ci 0 0⟩], []⟩

@[simp]
theorem DoubleComplex.add_re (a b : DoubleComplex) : (a + b).re = a.re + b.re := rfl

@[simp]
theorem DoubleComplex.add_im (a b : DoubleComplex) : (a + b).im = a.im + b.im := rfl

@[simp]
theorem DoubleComplex.zero_re : (0 : DoubleComplex).re = 0 := rfl

@[simp]
theorem DoubleComplex.zero_im : (0 : DoubleComplex).im = 0 := rfl

@[simp]
theorem DoubleComplex.neg_re (a : DoubleComplex) : (-a).re = -a.re := rfl

@[simp]
theorem DoubleComplex.neg_im (a : DoubleComplex) : (-a).im = -a.im := rfl

@[simp]
theorem DoubleComplex.mul_re (a b : DoubleComplex) : (a * b).re = a.re * b.re - a.im * b.im := rfl

@[simp]
theorem DoubleComplex.mul_im (a b : DoubleComplex) : (a * b).im = a.re * b.im + a.im * b.re := rfl

@[simp]
theorem DoubleComplex.conj_re (a : DoubleComplex) : a.conj.re = a.re := rfl

@[simp]
theorem DoubleComplex.conj_im (a : DoubleComplex) : a.conj.im = -a.im := rfl

namespace YBus

theorem psum_succ (f : Nat → Nat) (k : Nat) : psum f (k + 1) = psum f k + f k := rfl

theorem psum_shift (f : Nat → Nat) (k : Nat) :
    psum f (k + 1) = f 0 + psum (fun j => f (j + 1)) k := by
  induction k with
  | zero => simp [psum]
  | succ m ih => rw [psum_succ, ih, psum_succ]; omega

theorem psum_mono (f : Nat → Nat) {i j : Nat} (h : i ≤ j) : psum f i ≤ psum f j := by
  induction j with
  | zero =>
    have : i = 0 := by omega
    subst this; exact le_refl _
  | succ m ih =>
    rcases Nat.lt_or_ge i (m + 1) with h1 | h1
    · exact le_trans (ih (by omega)) (by rw [psum_succ]; omega)
    · have : i = m + 1 := by omega
      subst this; exact le_refl _

theorem getD_append_left {α : Type} {l₁ l₂ : List α} {n : Nat} (d : α) (h : n < l₁.length) :
    (l₁ ++ l₂).getD n d = l₁.getD n d := by
  rw [List.getD_eq_getElem _ _ (by simp; omega), List.getD_eq_getElem _ _ h]
  exact List.getElem_append_left h

theorem getD_append_right {α : Type} (l₁ l₂ : List α) (n : Nat) (d : α) :
    (l₁ ++ l₂).getD (l₁.length + n) d = l₂.getD n d := by
  rcases Nat.lt_or_ge n l₂.length with h | h
  · rw [List.getD_eq_getElem _ _ (by simp; omega), List.getD_eq_getElem _ _ h]
    rw [List.getElem_append_right (by omega)]
    congr 1
    omega
  · rw [List.getD_eq_default _ _ (by simp; omega), List.getD_eq_default _ _ h]

theorem length_flatMap_range {α : Type} (g : Nat → List α) (m : Nat) :
    ((List.range m).flatMap g).length = psum (fun r => (g r).length) m := by
  induction m with
  | zero => simp [psum]
  | succ k ih =>
    rw [List.range_succ, List.flatMap_append, List.length_append, ih, psum_succ]
    simp

theorem getD_flatMap_range {α : Type} (g : Nat → List α) (m b off : Nat) (d : α)
    (hb : b < m) (hoff : off < (g b).length) :
    ((List.range m).flatMap g).getD (psum (fun r => (g r).length) b + off) d =
      (g b).getD off d := by
  induction m with
  | zero => omega
  | succ k ih =>
    rw [List.range_succ, List.flatMap_append]
    rcases Nat.lt_or_ge b k with h1 | h1
    · rw [getD_append_left d ?_]
      · exact ih h1
      · rw [length_flatMap_range]
        calc psum (fun r => (g r).length) b + off
            < psum (fun r => (g r).length) (b + 1) := by rw [psum_succ]; omega
          _ ≤ psum (fun r => (g r).length) k := psum_mono _ (by omega)
    · have hbk : b = k := by omega
      subst hbk
      have hlen : ((List.range b).flatMap g).length = psum (fun r => (g r).length) b :=
        length_flatMap_range g b
      rw [← hlen, getD_append_right]
      simp [getD_append_left d hoff]

theorem flatten_slice {α : Type} (gs : List (List α)) (k : Nat) (hk : k < gs.length) :
    (gs.flatten.drop (psum (fun j => (gs.getD j []).length) k)).take
      ((gs.getD k []).length) = gs.getD k [] := by
  induction gs generalizing k with
  | nil => simp at hk
  | cons g rest ih =>
    cases k with
    | zero =>
      show ((g ++ rest.flatten).drop (psum _ 0)).take _ = _
      rw [show psum (fun j => ((g :: rest).getD j []).length) 0 = 0 from rfl]
      rw [List.drop_zero]
      exact List.take_left g rest.flatten
    | succ m =>
      rw [psum_shift]
      show ((g ++ rest.flatten).drop (g.length + _)).take _ = _
      rw [← List.drop_drop, List.drop_left]
      exact ih m (by simpa using hk)

theorem sum_map_range_single {M : Type} [AddCommMonoid M] (h : Nat → M) (n b : Nat)
    (hb : b < n) (hz : ∀ j, j < n → j ≠ b → h j = 0) :
    ((List.range n).map h).sum = h b := by
  induction n with
  | zero => omega
  | succ m ih =>
    rw [List.range_succ, List.map_append, List.sum_append]
    rcases Nat.lt_or_ge b m with h1 | h1
    · rw [ih h1 (fun j hj hjb => hz j (by omega) hjb)]
      simp [hz m (by omega) (by omega)]
    · have hbm : b = m := by omega
      subst hbm
      rw [List.sum_eq_zero]
      · simp
      · intro x hx
        rcases List.mem_map.mp hx with ⟨j, hj, rfl⟩
        exact hz j (by have := List.mem_range.mp hj; omega) (by have := List.mem_range.mp hj; omega)

theorem posOf_lt_length {α : Type} [DecidableEq α] {p : α} {l : List α} (h : p ∈ l) :
    posOf p l < l.length := by
  induction l with
  | nil => simp at h
  | cons q rest ih =>
    by_cases hq : q = p
    · simp [posOf, hq]
    · have hmem : p ∈ rest := (List.mem_cons.mp h).resolve_left (fun hpq => hq hpq.symm)
      simp only [posOf, hq, if_false, List.length_cons]
      exact Nat.succ_lt_succ (ih hmem)

theorem getD_posOf {α : Type} [DecidableEq α] {p : α} {l : List α} (d : α) (h : p ∈ l) :
    l.getD (posOf p l) d = p := by
  induction l with
  | nil => simp at h
  | cons q rest ih =>
    by_cases hq : q = p
    · simp [posOf, hq]
    · have hmem : p ∈ rest := (List.mem_cons.mp h).resolve_left (fun hpq => hq hpq.symm)
      simp only [posOf, hq, if_false]
      exact ih hmem

theorem posOf_getD {α : Type} [DecidableEq α] {l : List α} (hnd : l.Nodup) {k : Nat} (d : α)
    (h : k < l.length) : posOf (l.getD k d) l = k := by
  induction l generalizing k with
  | nil => simp at h
  | cons q rest ih =>
    cases k with
    | zero => simp [posOf]
    | succ m =>
      have hm : m < rest.length := by simpa using h
      have hmem : rest.getD m d ∈ rest := by
        rw [List.getD_eq_getElem _ _ hm]; exact List.getElem_mem hm
      have hq : q ≠ rest.getD m d := by
        intro hcontra
        exact (List.nodup_cons.mp hnd).1 (hcontra ▸ hmem)
      show posOf (rest.getD m d) (q :: rest) = m + 1
      simp only [posOf, hq, if_false]
      rw [ih (List.nodup_cons.mp hnd).2 hm]

theorem psum_congr {f g : Nat → Nat} (h : ∀ i, f i = g i) (n : Nat) : psum f n = psum g n := by
  induction n with
  | zero => rfl
  | succ m ih => rw [psum_succ, psum_succ, ih, h]

theorem row_indptr_getD (topo : MathModelTopology) {i : Nat} (h : i ≤ size topo) :
    (row_indptr topo).getD i 0 = psum (fun r => (cols_of_row topo r).length) i := by
  rw [row_indptr, List.getD_eq_getElem _ _ (by simp; omega), List.getElem_map,
    List.getElem_range]

theorem nnz_eq_psum (topo : MathModelTopology) :
    nnz topo = psum (fun r => (cols_of_row topo r).length) (size topo) := by
  rw [nnz, cells, length_flatMap_range]
  exact psum_congr (fun i => by simp) _

theorem mem_cols_of_row {topo : MathModelTopology} {r c : Nat} :
    c ∈ cols_of_row topo r ↔ c < size topo ∧ (c = r ∨ has_element topo r c = true) := by
  simp [cols_of_row, List.mem_filter, List.mem_range]

theorem mem_cells {topo : MathModelTopology} {p : Nat × Nat} :
    p ∈ cells topo ↔ p.1 < size topo ∧ p.2 ∈ cols_of_row topo p.1 := by
  constructor
  · intro h
    rcases List.mem_flatMap.mp h with ⟨r, hr, hmem⟩
    rcases List.mem_map.mp hmem with ⟨c, hc, hpc⟩
    subst hpc
    exact ⟨List.mem_range.mp hr, hc⟩
  · intro h
    refine List.mem_flatMap.mpr ⟨p.1, List.mem_range.mpr h.1, ?_⟩
    exact List.mem_map.mpr ⟨p.2, h.2, rfl⟩

theorem cells_nodup (topo : MathModelTopology) : (cells topo).Nodup := by
  rw [cells]
  refine List.nodup_flatMap.mpr ⟨?_, ?_⟩
  · intro r _
    refine List.Nodup.map ?_ (List.Nodup.filter _ (List.nodup_range _))
    intro c₁ c₂ hcc
    exact (Prod.ext_iff.mp hcc).2
  · refine (List.pairwise_lt_range _).imp ?_
    intro a b hab x hxa hxb
    rcases List.mem_map.mp hxa with ⟨c₁, _, rfl⟩
    rcases List.mem_map.mp hxb with ⟨c₂, _, heq⟩
    have hba : b = a := congrArg Prod.fst heq
    omega

theorem has_element_symm {topo : MathModelTopology} {r c : Nat} (hne : r ≠ c)
    (h : has_element topo r c = true) : has_element topo c r = true := by
  rw [has_element, List.any_eq_true] at h ⊢
  rcases h with ⟨e, he, hrc⟩
  simp only [Bool.and_eq_true, decide_eq_true_eq] at hrc
  obtain ⟨her, hec⟩ := hrc
  rcases List.mem_append.mp he with hb | hs
  · rcases List.mem_flatMap.mp hb with ⟨i, hi, hbe⟩
    by_cases h1 : (topo.branch_bus_idx.getD i (-1, -1)).1 ≠ -1 ∧
        (topo.branch_bus_idx.getD i (-1, -1)).2 ≠ -1
    · rw [branch_elements, if_pos h1] at hbe
      simp only [List.mem_cons, List.not_mem_nil, or_false] at hbe
      rcases hbe with rfl | rfl | rfl | rfl
      · exact absurd (her ▸ hec ▸ rfl) hne
      · refine ⟨⟨.btf, i, (topo.branch_bus_idx.getD i (-1, -1)).2.toNat,
          (topo.branch_bus_idx.getD i (-1, -1)).1.toNat⟩, ?_, ?_⟩
        · exact List.mem_append.mpr (Or.inl (List.mem_flatMap.mpr
            ⟨i, hi, by rw [branch_elements, if_pos h1]; simp⟩))
        · simp only [Bool.and_eq_true, decide_eq_true_eq]
          exact ⟨hec, her⟩
      · refine ⟨⟨.bft, i, (topo.branch_bus_idx.getD i (-1, -1)).1.toNat,
          (topo.branch_bus_idx.getD i (-1, -1)).2.toNat⟩, ?_, ?_⟩
        · exact List.mem_append.mpr (Or.inl (List.mem_flatMap.mpr
            ⟨i, hi, by rw [branch_elements, if_pos h1]; simp⟩))
        · simp only [Bool.and_eq_true, decide_eq_true_eq]
          exact ⟨hec, her⟩
      · exact absurd (her ▸ hec ▸ rfl) hne
    · rw [branch_elements, if_neg h1] at hbe
      split at hbe
      · simp only [List.mem_cons, List.not_mem_nil, or_false] at hbe
        subst hbe; exact absurd (her ▸ hec ▸ rfl) hne
      · split at hbe
        · simp only [List.mem_cons, List.not_mem_nil, or_false] at hbe
          subst hbe; exact absurd (her ▸ hec ▸ rfl) hne
        · exact absurd hbe (List.not_mem_nil e)
  · rcases List.mem_flatMap.mp hs with ⟨b, _, hmem⟩
    rcases List.mem_map.mp hmem with ⟨j, _, rfl⟩
    exact absurd (her ▸ hec ▸ rfl) hne

theorem diag_mem_cells {topo : MathModelTopology} {b : Nat} (hb : b < size topo) :
    (b, b) ∈ cells topo :=
  mem_cells.mpr ⟨hb, mem_cols_of_row.mpr ⟨hb, Or.inl rfl⟩⟩

theorem mirror_mem_cells {topo : MathModelTopology} {p : Nat × Nat} (hp : p ∈ cells topo) :
    (p.2, p.1) ∈ cells topo := by
  rcases mem_cells.mp hp with ⟨h1, h2⟩
  rcases mem_cols_of_row.mp h2 with ⟨h3, h4⟩
  by_cases he : p.2 = p.1
  · rw [he]; exact diag_mem_cells h1
  · have h5 : has_element topo p.1 p.2 = true := h4.resolve_left he
    have h6 : has_element topo p.2 p.1 = true :=
      has_element_symm (fun hh => he hh.symm) h5
    exact mem_cells.mpr ⟨h3, mem_cols_of_row.mpr ⟨h1, Or.inr h6⟩⟩

theorem cells_getD_mem {topo : MathModelTopology} {k : Nat} (hk : k < nnz topo) :
    (cells topo).getD k (0, 0) ∈ cells topo := by
  rw [List.getD_eq_getElem _ _ hk]
  exact List.getElem_mem hk

theorem transpose_entry_getD {topo : MathModelTopology} {k : Nat} (hk : k < nnz topo) :
    (transpose_entry topo).getD k 0 =
      posOf (((cells topo).getD k (0, 0)).2, ((cells topo).getD k (0, 0)).1) (cells topo) := by
  rw [transpose_entry, List.getD_eq_getElem _ _ (by simpa [nnz] using hk), List.getElem_map,
    List.getD_eq_getElem _ _ hk]

theorem bus_entry_getD {topo : MathModelTopology} {b : Nat} (hb : b < size topo) :
    (bus_entry topo).getD b 0 = posOf (b, b) (cells topo) := by
  rw [bus_entry, List.getD_eq_getElem _ _ (by simpa using hb), List.getElem_map,
    List.getElem_range]

theorem row_indices_getD {topo : MathModelTopology} {k : Nat} (hk : k < nnz topo) :
    (row_indices topo).getD k 0 = ((cells topo).getD k (0, 0)).1 := by
  rw [row_indices, List.getD_eq_getElem _ _ (by simpa [nnz] using hk), List.getElem_map,
    List.getD_eq_getElem _ _ hk]

theorem col_indices_getD {topo : MathModelTopology} {k : Nat} (hk : k < nnz topo) :
    (col_indices topo).getD k 0 = ((cells topo).getD k (0, 0)).2 := by
  rw [col_indices, List.getD_eq_getElem _ _ (by simpa [nnz] using hk), List.getElem_map,
    List.getD_eq_getElem _ _ hk]

theorem entry_groups_getD {topo : MathModelTopology} {k : Nat} (hk : k < nnz topo) :
    (entry_groups topo).getD k [] = entry_elements topo ((cells topo).getD k (0, 0)) := by
  rw [entry_groups, List.getD_eq_getElem _ _ (by simpa [nnz] using hk), List.getElem_map,
    List.getD_eq_getElem _ _ hk]

theorem admittance_getD {topo : MathModelTopology} {param : MathModelParam} {k : Nat}
    (hk : k < nnz topo) :
    (admittance topo param).getD k 0 =
      (((entry_groups topo).getD k []).map (param_value param)).sum := by
  rw [admittance, List.getD_eq_getElem _ _ (by simpa [entry_groups, nnz] using hk),
    List.getElem_map, List.getD_eq_getElem _ _ (by simpa [entry_groups, nnz] using hk)]

theorem y_bus_entry_indptr_getD (topo : MathModelTopology) {i : Nat} (h : i ≤ nnz topo) :
    (y_bus_entry_indptr topo).getD i 0 =
      psum (fun k => ((entry_groups topo).getD k []).length) i := by
  rw [y_bus_entry_indptr, List.getD_eq_getElem _ _ (by simp; omega), List.getElem_map,
    List.getElem_range]

theorem valid_topology_spec {topo : MathModelTopology} (hv : valid_topology topo = true) :
    topo.shunt_bus_indptr.length = size topo + 1 ∧
    (∀ b, b < size topo → sbi topo b ≤ sbi topo (b + 1)) ∧
    (∀ i, i < n_branch topo →
      bus_ok (size topo) (topo.branch_bus_idx.getD i (-1, -1)).1 = true ∧
      bus_ok (size topo) (topo.branch_bus_idx.getD i (-1, -1)).2 = true) := by
  rw [valid_topology] at hv
  simp only [Bool.and_eq_true, List.all_eq_true, decide_eq_true_eq] at hv
  obtain ⟨⟨hlen, hmono⟩, hbranch⟩ := hv
  refine ⟨hlen, ?_, ?_⟩
  · intro b hb
    exact hmono _ (List.mem_range.mpr hb)
  · intro i hi
    have hmem : topo.branch_bus_idx.getD i (-1, -1) ∈ topo.branch_bus_idx := by
      rw [List.getD_eq_getElem _ _ hi]
      exact List.getElem_mem hi
    exact hbranch _ hmem

theorem bus_ok_spec {n : Nat} {x : Int} (h : bus_ok n x = true) :
    x = -1 ∨ (0 ≤ x ∧ x < (n : Int)) := by
  rw [bus_ok] at h
  simpa using h

theorem entry_elements_isolated (topo : MathModelTopology)
    (hv : valid_topology topo = true) (b : Nat)
    (hno : topo.branch_bus_idx.all (fun ft => ft.1 ≠ (b : Int) && ft.2 ≠ (b : Int)) = true)
    (hsh : sbi topo (b + 1) = sbi topo b) :
    entry_elements topo (b, b) = [] := by
  rw [entry_elements, List.filter_eq_nil_iff]
  intro e he
  simp only [Bool.and_eq_true, decide_eq_true_eq, not_and]
  intro her hec
  rcases List.mem_append.mp he with hb1 | hs1
  · rcases List.mem_flatMap.mp hb1 with ⟨i, hi, hbe⟩
    have hi2 : i < n_branch topo := List.mem_range.mp hi
    have hok := (valid_topology_spec hv).2.2 i hi2
    have hmem : topo.branch_bus_idx.getD i (-1, -1) ∈ topo.branch_bus_idx := by
      rw [List.getD_eq_getElem _ _ hi2]
      exact List.getElem_mem hi2
    have hnob := (List.all_eq_true.mp hno) _ hmem
    simp only [Bool.and_eq_true, decide_eq_true_eq] at hnob
    obtain ⟨hnb1, hnb2⟩ := hnob
    rcases bus_ok_spec hok.1 with h1 | h1 <;> rcases bus_ok_spec hok.2 with h2 | h2
    · rw [branch_elements, if_neg (by omega), if_neg (by omega), if_neg (by omega)] at hbe
      exact absurd hbe (List.not_mem_nil e)
    · rw [branch_elements, if_neg (by omega), if_neg (by omega), if_pos (by omega)] at hbe
      simp only [List.mem_cons, List.not_mem_nil, or_false] at hbe
      subst hbe
      simp only at her
      omega
    · rw [branch_elements, if_neg (by omega), if_pos (by omega)] at hbe
      simp only [List.mem_cons, List.not_mem_nil, or_false] at hbe
      subst hbe
      simp only at her
      omega
    · rw [branch_elements, if_pos (by constructor <;> omega)] at hbe
      simp only [List.mem_cons, List.not_mem_nil, or_false] at hbe
      rcases hbe with rfl | rfl | rfl | rfl <;> simp only at her hec <;> omega
  · rcases List.mem_flatMap.mp hs1 with ⟨b2, _, hmem⟩
    rcases List.mem_map.mp hmem with ⟨j, hj, rfl⟩
    simp only at her
    subst her
    have := List.mem_range.mp hj
    omega

theorem calculate_branch_flow_getD {topo : MathModelTopology} {param : MathModelParam}
    {u : List DoubleComplex} {i : Nat} (hi : i < n_branch topo) :
    (calculate_branch_flow topo param u).getD i ⟨0, 0, 0, 0⟩ =
      branch_flow_of param u i (topo.branch_bus_idx.getD i (-1, -1)) := by
  rw [calculate_branch_flow, List.getD_eq_getElem _ _ (by simpa using hi), List.getElem_map,
    List.getElem_range]

theorem filter_flatMap {α β : Type} (p : β → Bool) (f : α → List β) (l : List α) :
    (l.flatMap f).filter p = l.flatMap (fun x => (f x).filter p) := by
  induction l with
  | nil => rfl
  | cons x xs ih => simp only [List.flatMap_cons, List.filter_append, ih]

theorem sum_map_flatMap {α M : Type} [AddCommMonoid M] (g : α → M) (f : Nat → List α)
    (l : List Nat) :
    ((l.flatMap f).map g).sum = (l.map (fun i => ((f i).map g).sum)).sum := by
  induction l with
  | nil => rfl
  | cons x xs ih =>
    simp only [List.flatMap_cons, List.map_append, List.sum_append, ih, List.map_cons,
      List.sum_cons]

theorem no_self_loop_spec {topo : MathModelTopology} (hs : no_self_loop topo = true)
    {i : Nat} (hi : i < n_branch topo) :
    (topo.branch_bus_idx.getD i (-1, -1)).1 = -1 ∨
    (topo.branch_bus_idx.getD i (-1, -1)).2 = -1 ∨
    (topo.branch_bus_idx.getD i (-1, -1)).1 ≠ (topo.branch_bus_idx.getD i (-1, -1)).2 := by
  rw [no_self_loop, List.all_eq_true] at hs
  have hmem : topo.branch_bus_idx.getD i (-1, -1) ∈ topo.branch_bus_idx := by
    rw [List.getD_eq_getElem _ _ hi]
    exact List.getElem_mem hi
  have hxx := hs _ hmem
  simp only [Bool.or_eq_true, decide_eq_true_eq] at hxx
  tauto

theorem rule_value_eq_param_value {topo : MathModelTopology} (param : MathModelParam)
    (hv : valid_topology topo = true) (hs : no_self_loop topo = true)
    {e : YBusElement} (he : e ∈ all_elements topo) :
    rule_value topo param e = param_value param e := by
  rcases List.mem_append.mp he with hb1 | hs1
  · rcases List.mem_flatMap.mp hb1 with ⟨i, hi, hbe⟩
    have hi2 : i < n_branch topo := List.mem_range.mp hi
    have hok := (valid_topology_spec hv).2.2 i hi2
    have hsl := no_self_loop_spec hs hi2
    by_cases h1 : (topo.branch_bus_idx.getD i (-1, -1)).1 ≠ -1 ∧
        (topo.branch_bus_idx.getD i (-1, -1)).2 ≠ -1
    · have hf : 0 ≤ (topo.branch_bus_idx.getD i (-1, -1)).1 := by
        rcases bus_ok_spec hok.1 with hcc | hcc
        · exact absurd hcc h1.1
        · exact hcc.1
      have ht : 0 ≤ (topo.branch_bus_idx.getD i (-1, -1)).2 := by
        rcases bus_ok_spec hok.2 with hcc | hcc
        · exact absurd hcc h1.2
        · exact hcc.1
      have hne : (topo.branch_bus_idx.getD i (-1, -1)).1 ≠
          (topo.branch_bus_idx.getD i (-1, -1)).2 := by
        rcases hsl with hcc | hcc | hcc
        · exact absurd hcc h1.1
        · exact absurd hcc h1.2
        · exact hcc
      rw [branch_elements, if_pos h1] at hbe
      simp only [List.mem_cons, List.not_mem_nil, or_false] at hbe
      rcases hbe with rfl | rfl | rfl | rfl <;>
        · simp only [rule_value, param_value]
          split_ifs <;> first | rfl | (exfalso; omega)
    · by_cases h2 : (topo.branch_bus_idx.getD i (-1, -1)).1 ≠ -1
      · have hft2 : (topo.branch_bus_idx.getD i (-1, -1)).2 = -1 := by
          by_contra hcc
          exact h1 ⟨h2, hcc⟩
        have hf : 0 ≤ (topo.branch_bus_idx.getD i (-1, -1)).1 := by
          rcases bus_ok_spec hok.1 with hcc | hcc
          · exact absurd hcc h2
          · exact hcc.1
        rw [branch_elements, if_neg h1, if_pos h2] at hbe
        simp only [List.mem_cons, List.not_mem_nil, or_false] at hbe
        subst hbe
        simp only [rule_value, param_value]
        split_ifs <;> first | rfl | (exfalso; omega)
      · by_cases h3 : (topo.branch_bus_idx.getD i (-1, -1)).2 ≠ -1
        · have hft1 : (topo.branch_bus_idx.getD i (-1, -1)).1 = -1 := by
            by_contra hcc
            exact h2 hcc
          have ht : 0 ≤ (topo.branch_bus_idx.getD i (-1, -1)).2 := by
            rcases bus_ok_spec hok.2 with hcc | hcc
            · exact absurd hcc h3
            · exact hcc.1
          rw [branch_elements, if_neg h1, if_neg h2, if_pos h3] at hbe
          simp only [List.mem_cons, List.not_mem_nil, or_false] at hbe
          subst hbe
          simp only [rule_value, param_value]
          split_ifs <;> first | rfl | (exfalso; omega)
        · rw [branch_elements, if_neg h1, if_neg h2, if_neg h3] at hbe
          exact absurd hbe (List.not_mem_nil e)
  · rcases List.mem_flatMap.mp hs1 with ⟨b2, _, hmem⟩
    rcases List.mem_map.mp hmem with ⟨j, _, rfl⟩
    simp [rule_value, param_value]

theorem branch_diag_filter_sum (topo : MathModelTopology) (param : MathModelParam)
    (hv : valid_topology topo = true) (hs : no_self_loop topo = true)
    (b : Nat) {i : Nat} (hi : i < n_branch topo) :
    (((branch_elements i (topo.branch_bus_idx.getD i (-1, -1))).filter
        (fun e => e.row = b && e.col = b)).map (param_value param)).sum =
      (if (topo.branch_bus_idx.getD i (-1, -1)).1 = (b : Int) then
        (param.branch_param.getD i ⟨0, 0, 0, 0⟩).yff else 0) +
      (if (topo.branch_bus_idx.getD i (-1, -1)).2 = (b : Int) then
        (param.branch_param.getD i ⟨0, 0, 0, 0⟩).ytt else 0) := by
  have hok := (valid_topology_spec hv).2.2 i hi
  have hsl := no_self_loop_spec hs hi
  set ftv := topo.branch_bus_idx.getD i (-1, -1) with hftv
  by_cases h1 : ftv.1 ≠ -1 ∧ ftv.2 ≠ -1
  · have hf : 0 ≤ ftv.1 := by
      rcases bus_ok_spec hok.1 with hcc | hcc
      · exact absurd hcc h1.1
      · exact hcc.1
    have ht : 0 ≤ ftv.2 := by
      rcases bus_ok_spec hok.2 with hcc | hcc
      · exact absurd hcc h1.2
      · exact hcc.1
    have hne : ftv.1 ≠ ftv.2 := by
      rcases hsl with hcc | hcc | hcc
      · exact absurd hcc h1.1
      · exact absurd hcc h1.2
      · exact hcc
    rw [branch_elements, if_pos h1]
    by_cases haf : ftv.1 = (b : Int) <;> by_cases hat : ftv.2 = (b : Int)
    · exact absurd (haf.trans hat.symm) hne
    · have ha : ftv.1.toNat = b := by omega
      have hb2 : ¬(ftv.2.toNat = b) := by omega
      simp [List.filter_cons, ha, hb2, haf, hat, param_value]
    · have ha : ¬(ftv.1.toNat = b) := by omega
      have hb2 : ftv.2.toNat = b := by omega
      simp [List.filter_cons, ha, hb2, haf, hat, param_value]
    · have ha : ¬(ftv.1.toNat = b) := by omega
      have hb2 : ¬(ftv.2.toNat = b) := by omega
      simp [List.filter_cons, ha, hb2, haf, hat]
  · by_cases h2 : ftv.1 ≠ -1
    · have hft2 : ftv.2 = -1 := by
        by_contra hcc
        exact h1 ⟨h2, hcc⟩
      have hf : 0 ≤ ftv.1 := by
        rcases bus_ok_spec hok.1 with hcc | hcc
        · exact absurd hcc h2
        · exact hcc.1
      have hat : ¬(ftv.2 = (b : Int)) := by omega
      rw [branch_elements, if_neg h1, if_pos h2]
      by_cases haf : ftv.1 = (b : Int)
      · have ha : ftv.1.toNat = b := by omega
        simp [List.filter_cons, ha, haf, hat, param_value]
      · have ha : ¬(ftv.1.toNat = b) := by omega
        simp [List.filter_cons, ha, haf, hat]
    · by_cases h3 : ftv.2 ≠ -1
      · have hft1 : ftv.1 = -1 := by
          by_contra hcc
          exact h2 hcc
        have ht : 0 ≤ ftv.2 := by
          rcases bus_ok_spec hok.2 with hcc | hcc
          · exact absurd hcc h3
          · exact hcc.1
        have haf : ¬(ftv.1 = (b : Int)) := by omega
        rw [branch_elements, if_neg h1, if_neg h2, if_pos h3]
        by_cases hat : ftv.2 = (b : Int)
        · have hb2 : ftv.2.toNat = b := by omega
          simp [List.filter_cons, hb2, haf, hat, param_value]
        · have hb2 : ¬(ftv.2.toNat = b) := by omega
          simp [List.filter_cons, hb2, haf, hat]
      · have hft1 : ftv.1 = -1 := by
          by_contra hcc
          exact h2 hcc
        have hft2 : ftv.2 = -1 := by
          by_contra hcc
          exact h3 hcc
        have haf : ¬(ftv.1 = (b : Int)) := by omega
        have hat : ¬(ftv.2 = (b : Int)) := by omega
        rw [branch_elements, if_neg h1, if_neg h2, if_neg h3]
        simp [haf, hat]

theorem shunt_diag_filter_sum (topo : MathModelTopology) (param : MathModelParam)
    {b : Nat} (hb : b < size topo) :
    ((((List.range (size topo)).flatMap (fun b2 =>
        (List.range (sbi topo (b2 + 1) - sbi topo b2)).map
          (fun j => (⟨.shunt, sbi topo b2 + j, b2, b2⟩ : YBusElement)))).filter
        (fun e => e.row = b && e.col = b)).map (param_value param)).sum =
      ((List.range (sbi topo (b + 1) - sbi topo b)).map
        (fun k => param.shunt_param.getD (sbi topo b + k) 0)).sum := by
  rw [filter_flatMap, sum_map_flatMap]
  have hz : ∀ j, j < size topo → j ≠ b →
      ((((List.range (sbi topo (j + 1) - sbi topo j)).map
        (fun k => (⟨.shunt, sbi topo j + k, j, j⟩ : YBusElement))).filter
        (fun e => e.row = b && e.col = b)).map (param_value param)).sum = 0 := by
    intro j _ hjb
    have hnil : ((List.range (sbi topo (j + 1) - sbi topo j)).map
        (fun k => (⟨.shunt, sbi topo j + k, j, j⟩ : YBusElement))).filter
        (fun e => e.row = b && e.col = b) = [] := by
      rw [List.filter_eq_nil_iff]
      intro a ha
      rcases List.mem_map.mp ha with ⟨k, _, rfl⟩
      simp [hjb]
    rw [hnil]
    rfl
  rw [sum_map_range_single _ (size topo) b hb hz]
  have hself : ((List.range (sbi topo (b + 1) - sbi topo b)).map
      (fun k => (⟨.shunt, sbi topo b + k, b, b⟩ : YBusElement))).filter
      (fun e => e.row = b && e.col = b) =
      (List.range (sbi topo (b + 1) - sbi topo b)).map
        (fun k => (⟨.shunt, sbi topo b + k, b, b⟩ : YBusElement)) := by
    rw [List.filter_eq_self]
    intro a ha
    rcases List.mem_map.mp ha with ⟨k, _, rfl⟩
    simp
  rw [hself, List.map_map]
  rfl

theorem sum_entry_elements_diag (topo : MathModelTopology) (param : MathModelParam)
    (hv : valid_topology topo = true) (hs : no_self_loop topo = true)
    {b : Nat} (hb : b < size topo) :
    ((entry_elements topo (b, b)).map (param_value param)).sum =
      claimed_diagonal_sum topo param b := by
  have h1 : entry_elements topo (b, b) =
      ((List.range (n_branch topo)).flatMap
        (fun i => branch_elements i (topo.branch_bus_idx.getD i (-1, -1)))).filter
        (fun e => e.row = b && e.col = b) ++
      ((List.range (size topo)).flatMap (fun b2 =>
        (List.range (sbi topo (b2 + 1) - sbi topo b2)).map
          (fun j => (⟨.shunt, sbi topo b2 + j, b2, b2⟩ : YBusElement)))).filter
        (fun e => e.row = b && e.col = b) := by
    rw [entry_elements, all_elements, List.filter_append]
  rw [h1, List.map_append, List.sum_append, claimed_diagonal_sum]
  congr 1
  · rw [filter_flatMap, sum_map_flatMap]
    exact congrArg List.sum
      (List.map_congr_left (fun i hi =>
        branch_diag_filter_sum topo param hv hs b (List.mem_range.mp hi)))
  · exact shunt_diag_filter_sum topo param hb

end YBus

/-- C1: for the 4-bus topology with branches
`{(1,0),(1,2),(2,3),(3,2),(0,1),(2,-1)}` (the last branch's to-end not
connected) and `shunt_bus_indptr = [0,1,1,1,2]`, constructing the Y-bus
yields `size() == 4`, `nnz() == 10` and `row_indptr() == [0,2,5,8,10]`. -/
theorem ybus_4bus_construction :
    YBus.valid_topology topo4 = true ∧ YBus.size topo4 = 4 ∧ YBus.nnz topo4 = 10 ∧
    YBus.row_indptr topo4 = [0, 2, 5, 8, 10] := by decide

/-- C7: construction fails with `InvalidTopology` exactly on a malformed
topology (out-of-range non-sentinel bus index, or a `shunt_bus_indptr`
that is not non-decreasing or has the wrong length), assembly fails with
`SizeMismatch` when the Parameter Set cardinality disagrees with the
topology, and on either failure only the error kind is returned, never a
partial structure. -/
theorem ybus_error_handling (topo : MathModelTopology) (param : MathModelParam) :
    (YBus.valid_topology topo = false →
      YBus.build_structure topo = .error .InvalidTopology ∧
      YBus.assemble topo param = .error .InvalidTopology) ∧
    (YBus.valid_topology topo = true → YBus.sizes_match topo param = false →
      YBus.assemble topo param = .error .SizeMismatch) ∧
    ((∃ s, YBus.build_structure topo = .ok s) ↔ YBus.valid_topology topo = true) ∧
    ((∃ a, YBus.assemble topo param = .ok a) ↔
      YBus.valid_topology topo = true ∧ YBus.sizes_match topo param = true) := by
  cases hv : YBus.valid_topology topo <;> cases hm : YBus.sizes_match topo param <;>
    simp [YBus.build_structure, YBus.assemble, hv, hm]

/-- Witness for C7 at concrete inputs: `topoBad` is rejected as
`InvalidTopology`, and a mismatched parameter set for the valid `topo1` is
rejected as `SizeMismatch`. -/
theorem ybus_error_handling_witness :
    YBus.valid_topology topoBad = false ∧
    YBus.build_structure topoBad = .error .InvalidTopology ∧
    YBus.valid_topology topo1 = true ∧ YBus.sizes_match topo1 paramBad = false ∧
    YBus.assemble topo1 paramBad = .error .SizeMismatch :=
  ⟨by decide, ((ybus_error_handling topoBad param1).1 (by decide)).1, by decide, by decide,
   (ybus_error_handling topo1 paramBad).2.1 (by decide) (by decide)⟩

/-- C9: `calculate_z_pu` replaces a NaN resistance or reactance by zero and
returns `(r / base_z, x / base_z)` with `base_z = u * u / base_power_3p`,
so NaN grounding inputs never reach the per-unit grounding impedance. -/
theorem calculate_z_pu_defaults (r x : FloatVal) (u : ℚ) :
    calculate_z_pu r x u =
      ⟨r.orZero / (u * u / base_power_3p), x.orZero / (u * u / base_power_3p)⟩ ∧
    (is_nan r = true → (calculate_z_pu r x u).re = 0) ∧
    (is_nan x = true → (calculate_z_pu r x u).im = 0) := by
  cases r <;> cases x <;> simp [calculate_z_pu, is_nan, FloatVal.orZero]

/-- Witness for C9: a NaN resistance input yields a zero per-unit
resistance component. -/
theorem calculate_z_pu_defaults_witness :
    is_nan .nan = true ∧ (calculate_z_pu .nan (.val 5) 10).re = 0 :=
  ⟨rfl, (calculate_z_pu_defaults .nan (.val 5) 10).2.1 rfl⟩

/-- C10: `set_tap` returns false and leaves the tap position unchanged
exactly when the new tap is `na_IntS` or equals the current position;
otherwise it returns true and stores the new tap clamped into
`[min(tap_min, tap_max), max(tap_min, tap_max)]`, so a successful
`set_tap` always lands inside the tap range, whether or not
`tap_max >= tap_min`. -/
theorem set_tap_behavior (t : ThreeWindingTransformer) (nt : Int) :
    (((t.set_tap nt).1 = false ∧ (t.set_tap nt).2.tap_pos = t.tap_pos) ↔
      (nt = na_IntS ∨ nt = t.tap_pos)) ∧
    (¬(nt = na_IntS ∨ nt = t.tap_pos) →
      (t.set_tap nt).1 = true ∧
      (t.set_tap nt).2.tap_pos =
        max (min nt (max t.tap_max t.tap_min)) (min t.tap_max t.tap_min) ∧
      min t.tap_min t.tap_max ≤ (t.set_tap nt).2.tap_pos ∧
      (t.set_tap nt).2.tap_pos ≤ max t.tap_min t.tap_max) := by
  by_cases h : nt = na_IntS ∨ nt = t.tap_pos
  · simp [ThreeWindingTransformer.set_tap, h]
  · simp [ThreeWindingTransformer.set_tap, ThreeWindingTransformer.tap_limit, h]
    omega

/-- Witness for C10: setting tap 5 on a transformer with position 0 and
range going from -2 to 3 succeeds. -/
theorem set_tap_behavior_witness :
    ¬((5 : Int) = na_IntS ∨ (5 : Int) = (⟨0, -2, 3⟩ : ThreeWindingTransformer).tap_pos) ∧
    ((⟨0, -2, 3⟩ : ThreeWindingTransformer).set_tap 5).1 = true :=
  ⟨by decide, ((set_tap_behavior ⟨0, -2, 3⟩ 5).2 (by decide)).1⟩

/-- C8: for every valid topology, the CSR row pointer starts at 0, is
non-decreasing, and ends at the stored nonzero count:
`row_indptr[0] == 0`, `row_indptr[i] <= row_indptr[i+1]` and
`row_indptr[size()] == nnz()`; its length is `size() + 1`. -/
theorem ybus_row_indptr_invariants (topo : MathModelTopology)
    (hv : YBus.valid_topology topo = true) :
    (YBus.row_indptr topo).length = YBus.size topo + 1 ∧
    (YBus.row_indptr topo).getD 0 0 = 0 ∧
    (∀ i, i < YBus.size topo →
      (YBus.row_indptr topo).getD i 0 ≤ (YBus.row_indptr topo).getD (i + 1) 0) ∧
    (YBus.row_indptr topo).getD (YBus.size topo) 0 = YBus.nnz topo := by
  refine ⟨by simp [YBus.row_indptr], ?_, ?_, ?_⟩
  · rw [YBus.row_indptr_getD topo (Nat.zero_le _)]
    rfl
  · intro i hi
    rw [YBus.row_indptr_getD topo (by omega), YBus.row_indptr_getD topo (by omega)]
    exact YBus.psum_mono _ (by omega)
  · rw [YBus.row_indptr_getD topo (le_refl _), YBus.nnz_eq_psum]

/-- Witness for C8 at the 4-bus test topology. -/
theorem ybus_row_indptr_invariants_witness :
    YBus.valid_topology topo4 = true ∧
    (YBus.row_indptr topo4).getD (YBus.size topo4) 0 = YBus.nnz topo4 :=
  ⟨by decide, (ybus_row_indptr_invariants topo4 (by decide)).2.2.2⟩

/-- C4: for every valid topology, `transpose_entry` is an involution on the
stored nonzeros, `transpose_entry[transpose_entry[k]] == k`, and every
diagonal entry — in particular every `bus_entry[b]` — maps to itself. -/
theorem ybus_transpose_involution (topo : MathModelTopology)
    (hv : YBus.valid_topology topo = true) :
    (YBus.transpose_entry topo).length = YBus.nnz topo ∧
    (∀ k, k < YBus.nnz topo →
      (YBus.transpose_entry topo).getD ((YBus.transpose_entry topo).getD k 0) 0 = k) ∧
    (∀ k, k < YBus.nnz topo →
      (YBus.row_indices topo).getD k 0 = (YBus.col_indices topo).getD k 0 →
      (YBus.transpose_entry topo).getD k 0 = k) ∧
    (∀ b, b < YBus.size topo →
      (YBus.transpose_entry topo).getD ((YBus.bus_entry topo).getD b 0) 0 =
        (YBus.bus_entry topo).getD b 0) := by
  have hnd := YBus.cells_nodup topo
  refine ⟨by simp [YBus.transpose_entry, YBus.nnz], ?_, ?_, ?_⟩
  · intro k hk
    have hpm : (YBus.cells topo).getD k (0, 0) ∈ YBus.cells topo := YBus.cells_getD_mem hk
    have hqm : (((YBus.cells topo).getD k (0, 0)).2, ((YBus.cells topo).getD k (0, 0)).1) ∈
        YBus.cells topo := YBus.mirror_mem_cells hpm
    have hj : YBus.posOf (((YBus.cells topo).getD k (0, 0)).2,
        ((YBus.cells topo).getD k (0, 0)).1) (YBus.cells topo) < YBus.nnz topo :=
      YBus.posOf_lt_length hqm
    rw [YBus.transpose_entry_getD hk, YBus.transpose_entry_getD hj, YBus.getD_posOf _ hqm]
    exact YBus.posOf_getD hnd _ hk
  · intro k hk hrc
    rw [YBus.row_indices_getD hk, YBus.col_indices_getD hk] at hrc
    rw [YBus.transpose_entry_getD hk]
    have hpp : (((YBus.cells topo).getD k (0, 0)).2, ((YBus.cells topo).getD k (0, 0)).1) =
        (YBus.cells topo).getD k (0, 0) := Prod.ext_iff.mpr ⟨hrc.symm, hrc⟩
    rw [hpp]
    exact YBus.posOf_getD hnd _ hk
  · intro b hb
    have hm : (b, b) ∈ YBus.cells topo := YBus.diag_mem_cells hb
    have hj : YBus.posOf (b, b) (YBus.cells topo) < YBus.nnz topo := YBus.posOf_lt_length hm
    rw [YBus.bus_entry_getD hb, YBus.transpose_entry_getD hj, YBus.getD_posOf _ hm]

/-- Witness for C4 at the 4-bus test topology: the mirror of nonzero 1 is
nonzero 2 and applying `transpose_entry` twice returns to 1; the diagonal
entry of bus 2 is fixed. -/
theorem ybus_transpose_involution_witness :
    YBus.valid_topology topo4 = true ∧
    (YBus.transpose_entry topo4).getD ((YBus.transpose_entry topo4).getD 1 0) 0 = 1 ∧
    (YBus.transpose_entry topo4).getD ((YBus.bus_entry topo4).getD 2 0) 0 =
      (YBus.bus_entry topo4).getD 2 0 :=
  ⟨by decide, (ybus_transpose_involution topo4 (by decide)).2.1 1 (by decide),
   (ybus_transpose_involution topo4 (by decide)).2.2.2 2 (by decide)⟩

/-- C6: an isolated bus — no branch touching it, no shunt attached — still
receives exactly one diagonal nonzero whose admittance is the additive
identity and whose `y_bus_entry_indptr` contribution range is empty; in
particular the single-bus topology yields `size() == 1`, `nnz() == 1`,
`row_indptr() == [0,1]`, `bus_entry() == [0]` and
`transpose_entry() == [0]`. -/
theorem ybus_isolated_bus :
    (∀ (topo : MathModelTopology) (param : MathModelParam) (b : Nat),
      YBus.valid_topology topo = true → b < YBus.size topo →
      topo.branch_bus_idx.all (fun ft => ft.1 ≠ (b : Int) && ft.2 ≠ (b : Int)) = true →
      YBus.sbi topo (b + 1) = YBus.sbi topo b →
      ((YBus.bus_entry topo).getD b 0 < YBus.nnz topo ∧
       (YBus.cells topo).getD ((YBus.bus_entry topo).getD b 0) (0, 0) = (b, b) ∧
       (∀ k, k < YBus.nnz topo → (YBus.cells topo).getD k (0, 0) = (b, b) →
         k = (YBus.bus_entry topo).getD b 0) ∧
       (YBus.admittance topo param).getD ((YBus.bus_entry topo).getD b 0) 0 = 0 ∧
       (YBus.y_bus_entry_indptr topo).getD ((YBus.bus_entry topo).getD b 0 + 1) 0 =
         (YBus.y_bus_entry_indptr topo).getD ((YBus.bus_entry topo).getD b 0) 0)) ∧
    (YBus.size topo1 = 1 ∧ YBus.nnz topo1 = 1 ∧ YBus.row_indptr topo1 = [0, 1] ∧
     YBus.bus_entry topo1 = [0] ∧ YBus.transpose_entry topo1 = [0]) := by
  constructor
  · intro topo param b hv hb hno hsh
    have hnd := YBus.cells_nodup topo
    have hm : (b, b) ∈ YBus.cells topo := YBus.diag_mem_cells hb
    have hbe : (YBus.bus_entry topo).getD b 0 = YBus.posOf (b, b) (YBus.cells topo) :=
      YBus.bus_entry_getD hb
    have hlt : (YBus.bus_entry topo).getD b 0 < YBus.nnz topo := by
      rw [hbe]; exact YBus.posOf_lt_length hm
    have hcell : (YBus.cells topo).getD ((YBus.bus_entry topo).getD b 0) (0, 0) = (b, b) := by
      rw [hbe]; exact YBus.getD_posOf _ hm
    have hiso : YBus.entry_elements topo (b, b) = [] :=
      YBus.entry_elements_isolated topo hv b hno hsh
    have hgroup : (YBus.entry_groups topo).getD ((YBus.bus_entry topo).getD b 0) [] = [] := by
      rw [YBus.entry_groups_getD hlt, hcell, hiso]
    refine ⟨hlt, hcell, ?_, ?_, ?_⟩
    · intro k hk hck
      have := YBus.posOf_getD hnd (0, 0) hk
      rw [hck] at this
      rw [hbe, ← this]
    · rw [YBus.admittance_getD hlt, hgroup]
      rfl
    · rw [YBus.y_bus_entry_indptr_getD topo (by omega), YBus.y_bus_entry_indptr_getD topo
        (by omega), YBus.psum_succ, hgroup]
      rfl
  · exact ⟨by decide, by decide, by decide, by decide, by decide⟩

/-- C3: `calculate_branch_flow` returns one record per branch; for a branch
with both ends connected `i_f = ff*u_from + ft*u_to`,
`i_t = tf*u_from + tt*u_to`, `s_f = u_from*conj(i_f)`,
`s_t = u_to*conj(i_t)` with no extra scaling; a disconnected end yields
zero flow while the connected end uses the surviving diagonal sub-block;
in particular for `u = [1,2,3,4]` and branch 2 with
`(ff,ft,tf,tt) = (9i,10i,11i,12i)` it returns `i_f == 67i`, `i_t == 81i`,
`s_f == -201i`, `s_t == -324i`. -/
theorem ybus_branch_flow (topo : MathModelTopology) (param : MathModelParam)
    (u : List DoubleComplex) (hu : u.length = YBus.size topo) :
    (YBus.calculate_branch_flow topo param u).length = YBus.n_branch topo ∧
    (∀ i, i < YBus.n_branch topo →
      (((topo.branch_bus_idx.getD i (-1, -1)).1 ≠ -1 →
        (topo.branch_bus_idx.getD i (-1, -1)).2 ≠ -1 →
        (YBus.calculate_branch_flow topo param u).getD i ⟨0, 0, 0, 0⟩ =
          ⟨(param.branch_param.getD i ⟨0, 0, 0, 0⟩).yff *
              u.getD (topo.branch_bus_idx.getD i (-1, -1)).1.toNat 0 +
            (param.branch_param.getD i ⟨0, 0, 0, 0⟩).yft *
              u.getD (topo.branch_bus_idx.getD i (-1, -1)).2.toNat 0,
           (param.branch_param.getD i ⟨0, 0, 0, 0⟩).ytf *
              u.getD (topo.branch_bus_idx.getD i (-1, -1)).1.toNat 0 +
            (param.branch_param.getD i ⟨0, 0, 0, 0⟩).ytt *
              u.getD (topo.branch_bus_idx.getD i (-1, -1)).2.toNat 0,
           u.getD (topo.branch_bus_idx.getD i (-1, -1)).1.toNat 0 *
            ((param.branch_param.getD i ⟨0, 0, 0, 0⟩).yff *
              u.getD (topo.branch_bus_idx.getD i (-1, -1)).1.toNat 0 +
             (param.branch_param.getD i ⟨0, 0, 0, 0⟩).yft *
              u.getD (topo.branch_bus_idx.getD i (-1, -1)).2.toNat 0).conj,
           u.getD (topo.branch_bus_idx.getD i (-1, -1)).2.toNat 0 *
            ((param.branch_param.getD i ⟨0, 0, 0, 0⟩).ytf *
              u.getD (topo.branch_bus_idx.getD i (-1, -1)).1.toNat 0 +
             (param.branch_param.getD i ⟨0, 0, 0, 0⟩).ytt *
              u.getD (topo.branch_bus_idx.getD i (-1, -1)).2.toNat 0).conj⟩) ∧
      ((topo.branch_bus_idx.getD i (-1, -1)).1 ≠ -1 →
        (topo.branch_bus_idx.getD i (-1, -1)).2 = -1 →
        (YBus.calculate_branch_flow topo param u).getD i ⟨0, 0, 0, 0⟩ =
          ⟨(param.branch_param.getD i ⟨0, 0, 0, 0⟩).yff *
              u.getD (topo.branch_bus_idx.getD i (-1, -1)).1.toNat 0,
           0,
           u.getD (topo.branch_bus_idx.getD i (-1, -1)).1.toNat 0 *
            ((param.branch_param.getD i ⟨0, 0, 0, 0⟩).yff *
              u.getD (topo.branch_bus_idx.getD i (-1, -1)).1.toNat 0).conj,
           0⟩) ∧
      ((topo.branch_bus_idx.getD i (-1, -1)).1 = -1 →
        (topo.branch_bus_idx.getD i (-1, -1)).2 ≠ -1 →
        (YBus.calculate_branch_flow topo param u).getD i ⟨0, 0, 0, 0⟩ =
          ⟨0,
           (param.branch_param.getD i ⟨0, 0, 0, 0⟩).ytt *
              u.getD (topo.branch_bus_idx.getD i (-1, -1)).2.toNat 0,
           0,
           u.getD (topo.branch_bus_idx.getD i (-1, -1)).2.toNat 0 *
            ((param.branch_param.getD i ⟨0, 0, 0, 0⟩).ytt *
              u.getD (topo.branch_bus_idx.getD i (-1, -1)).2.toNat 0).conj⟩) ∧
      ((topo.branch_bus_idx.getD i (-1, -1)).1 = -1 →
        (topo.branch_bus_idx.getD i (-1, -1)).2 = -1 →
        (YBus.calculate_branch_flow topo param u).getD i ⟨0, 0, 0, 0⟩ = ⟨0, 0, 0, 0⟩))) ∧
    (YBus.calculate_branch_flow topo4 param4 u4).getD 2 ⟨0, 0, 0, 0⟩ =
      ⟨ci 0 67, ci 0 81, ci 0 (-201), ci 0 (-324)⟩ := by
  refine ⟨by simp [YBus.calculate_branch_flow], ?_, ?_⟩
  · intro i hi
    rw [YBus.calculate_branch_flow_getD hi]
    refine ⟨?_, ?_, ?_, ?_⟩
    · intro h1 h2
      simp only [YBus.branch_flow_of]
      rw [if_pos ⟨h1, h2⟩]
    · intro h1 h2
      simp only [YBus.branch_flow_of]
      rw [if_neg (by omega), if_pos h1]
    · intro h1 h2
      simp only [YBus.branch_flow_of]
      rw [if_neg (by omega), if_neg (by omega), if_pos h2]
    · intro h1 h2
      simp only [YBus.branch_flow_of]
      rw [if_neg (by omega), if_neg (by omega), if_neg (by omega)]
  · have h1 : (YBus.calculate_branch_flow topo4 param4 u4).getD 2 ⟨0, 0, 0, 0⟩ =
        ⟨ci 0 9 * ci 3 0 + ci 0 10 * ci 4 0,
         ci 0 11 * ci 3 0 + ci 0 12 * ci 4 0,
         ci 3 0 * (ci 0 9 * ci 3 0 + ci 0 10 * ci 4 0).conj,
         ci 4 0 * (ci 0 11 * ci 3 0 + ci 0 12 * ci 4 0).conj⟩ := rfl
    rw [h1]
    norm_num [ci, DoubleComplex.ext_iff]

/-- Witness for C3: the voltage vector of the test has the right length and
the concrete branch-2 flow values follow. -/
theorem ybus_branch_flow_witness :
    u4.length = YBus.size topo4 ∧
    (YBus.calculate_branch_flow topo4 param4 u4).getD 2 ⟨0, 0, 0, 0⟩ =
      ⟨ci 0 67, ci 0 81, ci 0 (-201), ci 0 (-324)⟩ :=
  ⟨by decide, (ybus_branch_flow topo4 param4 u4 (by decide)).2.2⟩

/-- C5: `calculate_shunt_flow` returns one record per shunt; the shunt `j`
attached to bus `b` gets current `i = -y*u_b` (flowing out of the bus into
the shunt) and power `s = u_b*conj(i)`; in particular shunt 1 of the test
network (admittance `200i`, bus voltage 4) gets `i == -800i` and
`s == 3200i`. -/
theorem ybus_shunt_flow (topo : MathModelTopology) (param : MathModelParam)
    (u : List DoubleComplex) (hv : YBus.valid_topology topo = true)
    (h0 : topo.shunt_bus_indptr.getD 0 0 = 0) (hu : u.length = YBus.size topo) :
    (YBus.calculate_shunt_flow topo param u).length = YBus.n_shunt topo ∧
    (∀ b, b < YBus.size topo → ∀ j, YBus.sbi topo b ≤ j → j < YBus.sbi topo (b + 1) →
      (YBus.calculate_shunt_flow topo param u).getD j ⟨0, 0⟩ =
        ⟨-(param.shunt_param.getD j 0 * u.getD b 0),
         u.getD b 0 * (-(param.shunt_param.getD j 0 * u.getD b 0)).conj⟩) ∧
    (YBus.calculate_shunt_flow topo4 param4 u4).getD 1 ⟨0, 0⟩ =
      ⟨ci 0 (-800), ci 0 3200⟩ := by
  have hmono := (YBus.valid_topology_spec hv).2.1
  have hz : ∀ m, m ≤ YBus.size topo → YBus.sbi topo 0 ≤ YBus.sbi topo m := by
    intro m
    induction m with
    | zero => intro _; exact le_refl _
    | succ k ih => intro hm; exact le_trans (ih (by omega)) (hmono k (by omega))
  have htel : ∀ m, m ≤ YBus.size topo →
      YBus.psum (fun r => YBus.sbi topo (r + 1) - YBus.sbi topo r) m =
        YBus.sbi topo m - YBus.sbi topo 0 := by
    intro m
    induction m with
    | zero => intro hm; simp [YBus.psum]
    | succ k ih =>
      intro hm
      rw [YBus.psum_succ, ih (by omega)]
      have h1 := hmono k (by omega)
      have h2 := hz k (by omega)
      omega
  have hlen : ∀ m, ((List.range m).flatMap (fun b =>
      (List.range (YBus.sbi topo (b + 1) - YBus.sbi topo b)).map
        (fun k => YBus.shunt_flow_of param u b (YBus.sbi topo b + k)))).length =
      YBus.psum (fun r => YBus.sbi topo (r + 1) - YBus.sbi topo r) m := by
    intro m
    rw [YBus.length_flatMap_range]
    exact YBus.psum_congr (fun i => by simp) m
  refine ⟨?_, ?_, ?_⟩
  · rw [YBus.calculate_shunt_flow, hlen, htel _ (le_refl _)]
    have h0' : YBus.sbi topo 0 = 0 := h0
    rw [YBus.n_shunt]
    omega
  · intro b hb j hj1 hj2
    have hblock : j - YBus.sbi topo b <
        ((List.range (YBus.sbi topo (b + 1) - YBus.sbi topo b)).map
          (fun k => YBus.shunt_flow_of param u b (YBus.sbi topo b + k))).length := by
      simp
      omega
    have hpos : YBus.psum (fun r =>
        ((List.range (YBus.sbi topo (r + 1) - YBus.sbi topo r)).map
          (fun k => YBus.shunt_flow_of param u r (YBus.sbi topo r + k))).length) b +
        (j - YBus.sbi topo b) = j := by
      have he : YBus.psum (fun r =>
          ((List.range (YBus.sbi topo (r + 1) - YBus.sbi topo r)).map
            (fun k => YBus.shunt_flow_of param u r (YBus.sbi topo r + k))).length) b =
          YBus.psum (fun r => YBus.sbi topo (r + 1) - YBus.sbi topo r) b :=
        YBus.psum_congr (fun i => by simp) b
      rw [he, htel b (by omega)]
      have h0' : YBus.sbi topo 0 = 0 := h0
      omega
    have hstep := YBus.getD_flatMap_range
      (fun b => (List.range (YBus.sbi topo (b + 1) - YBus.sbi topo b)).map
        (fun k => YBus.shunt_flow_of param u b (YBus.sbi topo b + k)))
      (YBus.size topo) b (j - YBus.sbi topo b) ⟨0, 0⟩ hb hblock
    rw [hpos] at hstep
    have hgb : ((List.range (YBus.sbi topo (b + 1) - YBus.sbi topo b)).map
        (fun k => YBus.shunt_flow_of param u b (YBus.sbi topo b + k))).getD
          (j - YBus.sbi topo b) ⟨0, 0⟩ =
        YBus.shunt_flow_of param u b (YBus.sbi topo b + (j - YBus.sbi topo b)) := by
      rw [List.getD_eq_getElem _ _ hblock, List.getElem_map, List.getElem_range]
    have harg : YBus.sbi topo b + (j - YBus.sbi topo b) = j := by omega
    rw [harg] at hgb
    rw [YBus.calculate_shunt_flow]
    exact hstep.trans hgb
  · have h1 : (YBus.calculate_shunt_flow topo4 param4 u4).getD 1 ⟨0, 0⟩ =
        YBus.shunt_flow_of param4 u4 3 1 := rfl
    rw [h1]
    norm_num [YBus.shunt_flow_of, param4, u4, ci, DoubleComplex.ext_iff]

/-- Witness for C5: the hypotheses hold for the 4-bus test network, and the
record of shunt 1 (attached to bus 3) follows the `-y*u_b` convention. -/
theorem ybus_shunt_flow_witness :
    YBus.valid_topology topo4 = true ∧ topo4.shunt_bus_indptr.getD 0 0 = 0 ∧
    (YBus.calculate_shunt_flow topo4 param4 u4).getD 1 ⟨0, 0⟩ =
      ⟨-(param4.shunt_param.getD 1 0 * u4.getD 3 0),
       u4.getD 3 0 * (-(param4.shunt_param.getD 1 0 * u4.getD 3 0)).conj⟩ :=
  ⟨by decide, by decide,
   (ybus_shunt_flow topo4 param4 u4 (by decide) (by decide) (by decide)).2.1 3 (by decide) 1
     (by decide) (by decide)⟩

/-- C2 (amended): for every valid topology without self-loop branches and
every matching parameter set, the assembler produces exactly one admittance
value per merged nonzero, equal to the sum, over the candidate range
`y_bus_entry_indptr[k]..y_bus_entry_indptr[k+1]` of the sorted candidate
array, of the owning branch's sub-block selected by comparing the
candidate's (row, col) with the branch's (from, to) buses — or the shunt
value for shunt candidates; and the diagonal entry `bus_entry[b]` equals
the sum of the `ff`/`tt` diagonal sub-blocks of all branches touching bus
`b` plus all shunt values attached to bus `b`.  (For a self-loop branch all
four sub-blocks land on the diagonal, so the unrestricted claim fails; see
the counterexample.) -/
theorem ybus_admittance_assembly (topo : MathModelTopology) (param : MathModelParam)
    (hv : YBus.valid_topology topo = true) (hm : YBus.sizes_match topo param = true)
    (hs : YBus.no_self_loop topo = true) :
    (YBus.admittance topo param).length = YBus.nnz topo ∧
    (∀ k, k < YBus.nnz topo →
      (YBus.admittance topo param).getD k 0 =
        ((((YBus.sorted_elements topo).drop ((YBus.y_bus_entry_indptr topo).getD k 0)).take
          ((YBus.y_bus_entry_indptr topo).getD (k + 1) 0 -
            (YBus.y_bus_entry_indptr topo).getD k 0)).map
          (YBus.rule_value topo param)).sum) ∧
    (∀ b, b < YBus.size topo →
      (YBus.admittance topo param).getD ((YBus.bus_entry topo).getD b 0) 0 =
        YBus.claimed_diagonal_sum topo param b) := by
  refine ⟨by simp [YBus.admittance, YBus.entry_groups, YBus.nnz], ?_, ?_⟩
  · intro k hk
    have hk2 : k < (YBus.entry_groups topo).length := by
      simpa [YBus.entry_groups, YBus.nnz] using hk
    have hybk := YBus.y_bus_entry_indptr_getD topo (i := k) (by omega)
    have hybk1 := YBus.y_bus_entry_indptr_getD topo (i := k + 1) (by omega)
    have hdiff : YBus.psum (fun j => ((YBus.entry_groups topo).getD j []).length) (k + 1) -
        YBus.psum (fun j => ((YBus.entry_groups topo).getD j []).length) k =
        ((YBus.entry_groups topo).getD k []).length := by
      rw [YBus.psum_succ]
      omega
    rw [YBus.admittance_getD hk, hybk, hybk1, hdiff, YBus.sorted_elements,
      YBus.flatten_slice (YBus.entry_groups topo) k hk2]
    have hcong : ∀ e ∈ (YBus.entry_groups topo).getD k [],
        YBus.rule_value topo param e = YBus.param_value param e := by
      intro e he
      rw [YBus.entry_groups_getD hk] at he
      exact YBus.rule_value_eq_param_value param hv hs (List.mem_filter.mp he).1
    exact (congrArg List.sum (List.map_congr_left hcong)).symm
  · intro b hb
    have hm2 : (b, b) ∈ YBus.cells topo := YBus.diag_mem_cells hb
    have hlt : YBus.posOf (b, b) (YBus.cells topo) < YBus.nnz topo :=
      YBus.posOf_lt_length hm2
    rw [YBus.bus_entry_getD hb, YBus.admittance_getD hlt, YBus.entry_groups_getD hlt,
      YBus.getD_posOf _ hm2]
    exact YBus.sum_entry_elements_diag topo param hv hs hb

/-- Counterexample to C2 as stated: on the valid single-bus topology whose
only branch is the self-loop `(0, 0)` with `ft = 1` and
`ff = tf = tt = 0`, all four sub-blocks land on the diagonal, so the
diagonal admittance is 1 whereas the sum of `ff`/`tt` diagonal sub-blocks
plus shunts is 0. -/
theorem ybus_admittance_diag_counterexample :
    YBus.valid_topology topoSL = true ∧ YBus.sizes_match topoSL paramSL = true ∧
    (YBus.admittance topoSL paramSL).getD ((YBus.bus_entry topoSL).getD 0 0) 0 ≠
      YBus.claimed_diagonal_sum topoSL paramSL 0 := by
  refine ⟨by decide, by decide, ?_⟩
  intro hcc
  have hL : (YBus.admittance topoSL paramSL).getD ((YBus.bus_entry topoSL).getD 0 0) 0 =
      ci 0 0 + (ci 1 0 + (ci 0 0 + (ci 0 0 + 0))) := rfl
  have hR : YBus.claimed_diagonal_sum topoSL paramSL 0 =
      ((ci 0 0 + ci 0 0) + 0) + 0 := rfl
  rw [hL, hR] at hcc
  have hre := congrArg DoubleComplex.re hcc
  norm_num [ci] at hre

/-- Witness for C2 (amended) at the 4-bus test network: its diagonal entry
for bus 0 equals the claimed sum of diagonal sub-blocks plus shunts. -/
theorem ybus_admittance_assembly_witness :
    YBus.valid_topology topo4 = true ∧ YBus.sizes_match topo4 param4 = true ∧
    YBus.no_self_loop topo4 = true ∧
    (YBus.admittance topo4 param4).getD ((YBus.bus_entry topo4).getD 0 0) 0 =
      YBus.claimed_diagonal_sum topo4 param4 0 :=
  ⟨by decide, by decide, by decide,
   (ybus_admittance_assembly topo4 param4 (by decide) (by decide) (by decide)).2.2 0
     (by decide)⟩

/-- Witness for C6: the general isolated-bus statement applied to the
single-bus test topology gives a zero diagonal admittance and an empty
contribution range. -/
theorem ybus_isolated_bus_witness :
    YBus.valid_topology topo1 = true ∧
    (YBus.admittance topo1 param1).getD ((YBus.bus_entry topo1).getD 0 0) 0 = 0 ∧
    (YBus.y_bus_entry_indptr topo1).getD ((YBus.bus_entry topo1).getD 0 0 + 1) 0 =
      (YBus.y_bus_entry_indptr topo1).getD ((YBus.bus_entry topo1).getD 0 0) 0 :=
  ⟨by decide,
   (ybus_isolated_bus.1 topo1 param1 0 (by decide) (by decide) (by decide) (by decide)).2.2.2.1,
   (ybus_isolated_bus.1 topo1 param1 0 (by decide) (by decide) (by decide) (by decide)).2.2.2.2⟩

end PowerGridModel

section ModelValidation
/-!
Validation of the spec model against every remaining expectation recorded
in `test_y_bus.cpp` ("Test y bus" and "Test one bus system"): column and
row indices, bus entries, transpose entries, merge-group pointers and the
assembled symmetric admittance values.
-/
open PowerGridModel PowerGridModel.YBus

example : valid_topology topo4 = true := by decide
example : size topo4 = 4 ∧ nnz topo4 = 10 := by decide
example : row_indptr topo4 = [0, 2, 5, 8, 10] := by decide
example : col_indices topo4 = [0, 1, 0, 1, 2, 1, 2, 3, 2, 3] := by decide
example : row_indices topo4 = [0, 0, 1, 1, 1, 2, 2, 2, 3, 3] := by decide
example : bus_entry topo4 = [0, 3, 6, 9] := by decide
example : transpose_entry topo4 = [0, 2, 1, 3, 5, 4, 6, 8, 7, 9] := by decide
example : y_bus_entry_indptr topo4 = [0, 3, 5, 7, 10, 11, 12, 16, 18, 20, 23] := by decide
example : nnz topo1 = 1 ∧ row_indptr topo1 = [0, 1] ∧ bus_entry topo1 = [0] ∧
    transpose_entry topo1 = [0] ∧ y_bus_entry_indptr topo1 = [0, 0] := by decide
example : (calculate_shunt_flow topo4 param4 u4).getD 1 ⟨0, 0⟩ =
    ⟨ci 0 (-800), ci 0 3200⟩ := by
  have h1 : (calculate_shunt_flow topo4 param4 u4).getD 1 ⟨0, 0⟩ =
      shunt_flow_of param4 u4 3 1 := rfl
  rw [h1]
  norm_num [shunt_flow_of, param4, u4, ci, DoubleComplex.ext_iff]
example : (calculate_branch_flow topo4 param4 u4).getD 2 ⟨0, 0, 0, 0⟩ =
    ⟨ci 0 67, ci 0 81, ci 0 (-201), ci 0 (-324)⟩ := by
  have h1 : (calculate_branch_flow topo4 param4 u4).getD 2 ⟨0, 0, 0, 0⟩ =
      ⟨ci 0 9 * ci 3 0 + ci 0 10 * ci 4 0,
       ci 0 11 * ci 3 0 + ci 0 12 * ci 4 0,
       ci 3 0 * (ci 0 9 * ci 3 0 + ci 0 10 * ci 4 0).conj,
       ci 4 0 * (ci 0 11 * ci 3 0 + ci 0 12 * ci 4 0).conj⟩ := rfl
  rw [h1]
  norm_num [ci, DoubleComplex.ext_iff]
example : admittance topo4 param4 =
    [ci 17 104, ci 18 3, ci 19 2, ci 25 1, ci 6 0, ci 7 0,
     ci 24 1009, ci 15 10, ci 14 11, ci 13 212] := by
  have h1 : entry_groups topo4 =
      [[⟨.btt, 0, 0, 0⟩, ⟨.bff, 4, 0, 0⟩, ⟨.shunt, 0, 0, 0⟩],
       [⟨.btf, 0, 0, 1⟩, ⟨.bft, 4, 0, 1⟩],
       [⟨.bft, 0, 1, 0⟩, ⟨.btf, 4, 1, 0⟩],
       [⟨.bff, 0, 1, 1⟩, ⟨.bff, 1, 1, 1⟩, ⟨.btt, 4, 1, 1⟩],
       [⟨.bft, 1, 1, 2⟩],
       [⟨.btf, 1, 2, 1⟩],
       [⟨.btt, 1, 2, 2⟩, ⟨.bff, 2, 2, 2⟩, ⟨.btt, 3, 2, 2⟩, ⟨.bff, 5, 2, 2⟩],
       [⟨.bft, 2, 2, 3⟩, ⟨.btf, 3, 2, 3⟩],
       [⟨.btf, 2, 3, 2⟩, ⟨.bft, 3, 3, 2⟩],
       [⟨.btt, 2, 3, 3⟩, ⟨.bff, 3, 3, 3⟩, ⟨.shunt, 1, 3, 3⟩]] := by decide
  rw [admittance, h1]
  norm_num [param_value, param4, ci, DoubleComplex.ext_iff]

end ModelValidation
